/-
Verification of the schema-derivation core of the `juniper` repository:
the `#[derive(GraphQLObject)]` expansion (`juniper_codegen/src/graphql_object/derive.rs`),
the `#[graphql_scalar]` conversion-method resolution
(`juniper_codegen/src/graphql_scalar/attr.rs`), and the union runtime
dispatch contract exercised by `tests/integration/src/codegen/union_derive.rs`.

Shallow embedding conventions:
- Rust `syn` paths, types and identifiers are modelled as `String`s;
- a `proc_macro2::Span` is modelled by the text of the identifier it points
  at (a diagnostic's location is the identifier the span names);
- the `proc_macro_error` global collector is modelled by explicit `List Diag`
  accumulation, with `abort_if_dirty` checkpoints becoming `Except` early
  returns carrying the diagnostics accumulated so far;
- fallible Rust code (`syn::Result`) becomes `Except`.
-/
import Mathlib

namespace Juniper

/-! ## Scalar conversion resolution (`graphql_scalar/attr.rs`) -/

/-- `ParseToken` from `juniper_codegen/src/graphql_scalar`: the token-parser
role is either a custom function path or delegated to a list of types. -/
inductive ParseToken where
  | custom (path : String)
  | delegated (types : List String)
  deriving Repr, DecidableEq

/-- `Methods::Custom` from `juniper_codegen/src/graphql_scalar`: a fully
specified three-function conversion contract. -/
inductive Methods where
  | custom (to_output : String) (from_input : String) (parse_token : ParseToken)
  deriving Repr, DecidableEq

/-- The fixed error message emitted by `parse_type_alias_methods` when neither
a `with` module shorthand nor all three explicit functions are given
(`graphql_scalar/attr.rs:130-135`). -/
def scalarMethodsErrMsg : String :=
  "all the resolvers have to be provided via `with` attribute " ++
  "argument or a combination of `to_output_with`, `from_input_with`, " ++
  "`parse_token_with`/`parse_token` attribute arguments"

/-- `parse_type_alias_methods` from `graphql_scalar/attr.rs:112-137`:
resolves the scalar conversion contract from the optionally supplied
`to_output_with`, `from_input_with`, `parse_token_with`/`parse_token` and
`with` (module shorthand) attribute arguments. -/
def parse_type_alias_methods (to_output from_input : Option String)
    (parse_token : Option ParseToken) (with_module : Option String) :
    Except String Methods :=
  match to_output, from_input, parse_token, with_module with
  | some t, some f, some p, none => .ok (.custom t f p)
  | t, f, p, some m =>
      .ok (.custom
        (t.getD (m ++ "::to_output"))
        (f.getD (m ++ "::from_input"))
        (p.getD (.custom (m ++ "::parse_token"))))
  | _, _, _, _ => .error scalarMethodsErrMsg

/-- Rust's `str::starts_with`, on the underlying character sequence (kept
explicit so that concrete runs reduce inside proofs). -/
def strStartsWith (s pre : String) : Bool :=
  pre.data.isPrefixOf s.data

/-- `hay` contains `needle` as a contiguous substring. -/
def strContains (hay needle : String) : Prop :=
  ∃ pre post : String, hay = pre ++ needle ++ post

/-! ## Rename rules (Naming Engine) -/

/-- Modelled from the spec: `util::RenameRule` is not under `src/` (only its
use sites in `graphql_object/derive.rs` are).  §4.1: a rename rule is "a pure
string-transformation policy (e.g., camel-case) applied to derive a schema
name from a source identifier"; camel-case is the default.  `identity` is the
trivial no-renaming policy. -/
inductive RenameRule where
  | identity
  | camelCase
  deriving Repr, DecidableEq

/-- Modelled from the spec: the camel-case transformation of `RenameRule`
(`util::RenameRule::apply`, not under `src/`), on the identifier's character
list.  §8: "given rename rule = camel-case and a field identifier composed of
underscore-separated words, the resolved name has no underscores and each
word after the first is capitalized".  An underscore swallows itself and
upper-cases the character that follows it. -/
def camelCaseChars : List Char → List Char
  | [] => []
  | c :: rest =>
    if c = '_' then
      match rest with
      | [] => []
      | d :: rest2 => d.toUpper :: camelCaseChars rest2
    else c :: camelCaseChars rest

/-- `RenameRule::apply` on strings: `identity` returns the identifier
unchanged, `camelCase` applies `camelCaseChars`. -/
def RenameRule.apply (r : RenameRule) (s : String) : String :=
  match r with
  | .identity => s
  | .camelCase => ⟨camelCaseChars s.data⟩

/-- Joins words with single `'_'` separators: the character list of an
identifier "composed of underscore-separated words". -/
def underscoreJoin : List (List Char) → List Char
  | [] => []
  | [w] => w
  | w :: ws => w ++ '_' :: underscoreJoin ws

/-- Capitalizes the first character of a word (spec-side description of
"the word is capitalized"). -/
def capitalizeWord : List Char → List Char
  | [] => []
  | c :: cs => c.toUpper :: cs

/-- Spec-side description of the camel-cased form of a word list: the first
word verbatim, every later word capitalized, all concatenated with no
separator. -/
def camelJoin : List (List Char) → List Char
  | [] => []
  | w :: ws => w ++ (ws.map capitalizeWord).flatten

/-! ## Diagnostics and the object derive (`graphql_object/derive.rs`) -/

/-- A diagnostic as accumulated by the per-expansion collector: a source
location (modelled by the identifier the span points at) and a message. -/
structure Diag where
  loc : String
  msg : String
  deriving Repr, DecidableEq

/-- Modelled from the spec: the message of `GraphQLScope::no_double_underscore`
(`result.rs`, not under `src/`) — the diagnostic emitted for a name starting
with the reserved `__` prefix (§4.1). -/
def noDoubleUnderscoreMsg : String :=
  "All types and directives defined within an introspection system must " ++
  "have names that start with two underscores"

/-- `field::Attr` of `juniper_codegen/src/common/field` as consumed by
`parse_field` (`graphql_object/derive.rs:116-161`): the per-field metadata
record. -/
structure FieldAttr where
  name : Option String
  description : Option String
  deprecated : Option (Option String)
  ignore : Bool
  behavior : Option String
  deriving Repr, DecidableEq

/-- A Rust struct field as seen by `parse_field`: its identifier, its type
(as text), and the result of `field::Attr::from_attrs` on its attributes —
`.error e` models metadata that fails to parse with message `e`. -/
structure Field where
  ident : String
  ty : String
  attr : Except String FieldAttr
  deriving Repr

/-- `field::Definition` of `juniper_codegen/src/common/field` as constructed
by `parse_field` (`graphql_object/derive.rs:151-161`). -/
structure FieldDef where
  name : String
  ty : String
  description : Option String
  deprecated : Option (Option String)
  ident : String
  behavior : String
  arguments : Option (List String)
  has_receiver : Bool
  is_async : Bool
  deriving Repr, DecidableEq

/-- `resolve_name` (§4.1 Naming Engine contract), exactly as inlined at
`graphql_object/derive.rs:127-131` (fields) and `derive.rs:43-47` (the
object, whose rule is the identity): the explicit override verbatim when
present, else the rename rule applied to the identifier. -/
def resolve_name (ident : String) (explicit_override : Option String)
    (rule : RenameRule) : String :=
  explicit_override.getD (rule.apply ident)

/-- `parse_field` from `graphql_object/derive.rs:116-162`.  Returns the
diagnostics it emits together with the optional `field::Definition`:
`none` when the metadata fails to parse (diagnostic emitted), when the field
is flagged `ignore` (no diagnostic), or when the resolved name starts with
`__` (diagnostic emitted, pointing at the explicit name override when one
exists, else at the field identifier). -/
def parse_field (f : Field) (rule : RenameRule) :
    List Diag × Option FieldDef :=
  match f.attr with
  | .error e => ([⟨f.ident, e⟩], none)
  | .ok attr =>
    if attr.ignore then ([], none)
    else
      let name := resolve_name f.ident attr.name rule
      if strStartsWith name "__" then
        ([⟨attr.name.getD f.ident, noDoubleUnderscoreMsg⟩], none)
      else
        ([], some
          { name
            ty := f.ty
            description := attr.description
            deprecated := attr.deprecated
            ident := f.ident
            behavior := attr.behavior.getD ""
            arguments := none
            has_receiver := false
            is_async := false })

/-- Diagnostics emitted by parsing every field of the struct, in field
order (`graphql_object/derive.rs:70-74` under the global collector). -/
def fieldDiags (fs : List Field) (r : RenameRule) : List Diag :=
  (fs.map fun f => (parse_field f r).1).flatten

/-- The `field::Definition`s collected by `filter_map(|f| parse_field ..)`
(`graphql_object/derive.rs:70-74`). -/
def fieldDefs (fs : List Field) (r : RenameRule) : List FieldDef :=
  (fs.map fun f => parse_field f r).filterMap Prod.snd

/-- Modelled from the spec: `field::all_different` (`common/field`, not under
`src/`) — §4.3 step 3: "all resolved field names are pairwise distinct". -/
def all_different (fs : List FieldDef) : Bool :=
  namesNodup (fs.map FieldDef.name)
where
  /-- No string occurs twice in the list. -/
  namesNodup : List String → Bool
    | [] => true
    | n :: rest => !rest.contains n && namesNodup rest

/-- The field-renaming rule in effect for a struct: the `rename_all`
attribute argument, defaulting to camel-case
(`graphql_object/derive.rs:61-65`). -/
def effectiveRule (rename_fields : Option RenameRule) : RenameRule :=
  rename_fields.getD .camelCase

/-- The `#[graphql(...)]` container attribute of the derived struct
(`Attr::from_attrs("graphql", ..)`, `graphql_object/derive.rs:35`). -/
structure StructAttr where
  name : Option String
  description : Option String
  context : Option String
  scalar : Option String
  rename_fields : Option RenameRule
  is_internal : Bool
  interfaces : List String
  behavior : Option String
  deriving Repr, DecidableEq

/-- The input to `expand_struct`: the derived struct's identifier, its parsed
container attribute, whether its fields are named (`syn::Fields::Named`), the
fields themselves, and its generics (opaque, carried through). -/
structure DeriveInput where
  ident : String
  attr : StructAttr
  namedFields : Bool
  fields : List Field
  generics : String
  deriving Repr

/-- `Definition<Query>` as built by `expand_struct`
(`graphql_object/derive.rs:91-109`). -/
structure Definition where
  name : String
  ty : String
  generics : String
  description : Option String
  context : String
  scalar : Option String
  behavior : String
  fields : List FieldDef
  interfaces : List String
  deriving Repr, DecidableEq

/-- The diagnostics emitted by the reserved-prefix check on the object's
own resolved name (`graphql_object/derive.rs:43-55`): one `no_double_underscore`
diagnostic at the explicit name override (when present) or the struct
identifier, unless the declaration opted into internal status. -/
def objNameDiags (ast : DeriveInput) : List Diag :=
  let attr := ast.attr
  let name := attr.name.getD ast.ident
  if !attr.is_internal && strStartsWith name "__" then
    [⟨attr.name.getD ast.ident, noDoubleUnderscoreMsg⟩]
  else []

/-- The diagnostics of the two structural validations run between the second
and third `abort_if_dirty` checkpoints (`graphql_object/derive.rs:82-88`):
the emptiness check and the duplicate-name check, in that order.  Both are
always performed; their outputs are concatenated before the single abort. -/
def structuralDiags (ident : String) (flds : List FieldDef) : List Diag :=
  (if flds.isEmpty then [⟨ident, "must have at least one field"⟩] else []) ++
  (if all_different flds = false then
    [⟨ident, "must have a different name for each field"⟩]
   else [])

/-- `expand_struct` from `graphql_object/derive.rs:34-110`.  Mirrors the
three `abort_if_dirty` checkpoints (lines 59, 80, 89): each becomes an
`Except.error` carrying every diagnostic emitted since the previous
checkpoint (earlier checkpoints guarantee the collector was clean). -/
def expand_struct (ast : DeriveInput) : Except (List Diag) Definition :=
  let attr := ast.attr
  let name := attr.name.getD ast.ident
  if (objNameDiags ast).isEmpty = false then .error (objNameDiags ast)
  else
    let rule := effectiveRule attr.rename_fields
    let ds : List Diag :=
      if ast.namedFields then fieldDiags ast.fields rule
      else [⟨ast.ident, "only named fields are allowed"⟩]
    let flds : List FieldDef :=
      if ast.namedFields then fieldDefs ast.fields rule else []
    if ds.isEmpty = false then .error ds
    else
      if (structuralDiags ast.ident flds).isEmpty = false then
        .error (structuralDiags ast.ident flds)
      else
        .ok
          { name
            ty := ast.ident ++ ast.generics
            generics := ast.generics
            description := attr.description
            context := attr.context.getD "()"
            scalar := attr.scalar
            behavior := attr.behavior.getD ""
            fields := flds
            interfaces := attr.interfaces }

/-! ## Union runtime dispatch (§4.5, exercised by
`tests/integration/src/codegen/union_derive.rs`) -/

/-- A union member as admitted into the schema: its GraphQL type name and
its resolution function `(&value, &context) -> Option<&Member>` (§3 "Union
Member"). -/
structure UnionMember (V C M : Type) where
  name : String
  resolver : V → C → Option M

/-- A union variant as declared (one per enum variant of a
`#[derive(GraphQLUnion)]` enum, cf. `union_derive.rs`): its member type
name, its ignore/skip flag, and its (explicit or synthesized) resolver. -/
structure UnionVariant (V C M : Type) where
  name : String
  ignore : Bool
  resolver : V → C → Option M

/-- Modelled from the spec: union member admission (the
`#[derive(GraphQLUnion)]` expansion is not under `src/`; only its tests
are).  §4.5: "a member is included unless flagged ignore/skip" — the
declaration-ordered member list keeps exactly the non-ignored variants. -/
def admittedMembers {V C M : Type} (vs : List (UnionVariant V C M)) :
    List (UnionMember V C M) :=
  (vs.filter fun v => !v.ignore).map fun v => ⟨v.name, v.resolver⟩

/-- Modelled from the spec: the runtime dispatch of a union value (the
generated `resolve_into_type`, not under `src/`).  §4.5: "the engine invokes
each member's resolver function in declaration order and returns the first
member for which the resolver yields a present result; remaining resolvers
are not invoked once a match is found".  Instrumented: the second component
records, in order, exactly the members whose resolver was invoked. -/
def resolveIntoTypeTraced {V C M : Type} :
    List (UnionMember V C M) → V → C →
    Option (UnionMember V C M × M) × List (UnionMember V C M)
  | [], _, _ => (none, [])
  | m :: rest, v, c =>
    match m.resolver v c with
    | some r => (some (m, r), [m])
    | none =>
      let (res, tr) := resolveIntoTypeTraced rest v c
      (res, m :: tr)

/-- The dispatch result alone: the first member (with its concrete view of
the value) whose resolver yields a present result, or `none` when the value
is unresolvable for this union (§4.5 "no resolver matches"). -/
def resolveIntoType {V C M : Type} (ms : List (UnionMember V C M))
    (v : V) (c : C) : Option (UnionMember V C M × M) :=
  (resolveIntoTypeTraced ms v c).1

/-! ## Theorems -/

/-- C2: scalar conversion resolution returns exactly one of: the three
explicitly supplied functions when all are present and no module shorthand is
given; a contract in which every role not explicitly overridden resolves to
`module.<conventional-name>` when a module shorthand is present, explicit
overrides taking precedence; or an error otherwise — and every successful
contract is fully specified (all three roles present). -/
theorem scalar_resolution_trichotomy :
    (∀ t f p, parse_type_alias_methods (some t) (some f) (some p) none =
      .ok (.custom t f p)) ∧
    (∀ t f p m, ∃ t' f' p',
      parse_type_alias_methods t f p (some m) = .ok (.custom t' f' p') ∧
      (∀ x, t = some x → t' = x) ∧
      (t = none → t' = m ++ "::to_output") ∧
      (∀ x, f = some x → f' = x) ∧
      (f = none → f' = m ++ "::from_input") ∧
      (∀ x, p = some x → p' = x) ∧
      (p = none → p' = .custom (m ++ "::parse_token"))) ∧
    (∀ t f p, ¬(t.isSome ∧ f.isSome ∧ p.isSome) →
      parse_type_alias_methods t f p none = .error scalarMethodsErrMsg) ∧
    (∀ t f p w ms, parse_type_alias_methods t f p w = .ok ms →
      ∃ a b c, ms = .custom a b c) := by
  refine ⟨fun t f p => rfl, fun t f p m => ?_, fun t f p h => ?_, ?_⟩
  · exact ⟨t.getD (m ++ "::to_output"), f.getD (m ++ "::from_input"),
      p.getD (.custom (m ++ "::parse_token")), by
        cases t <;> cases f <;> cases p <;>
          simp [parse_type_alias_methods, Option.getD]⟩
  · cases t <;> cases f <;> cases p <;>
      simp_all [parse_type_alias_methods, Option.isSome]
  · intro t f p w ms h
    cases ms with
    | custom a b c => exact ⟨a, b, c, rfl⟩

/-- Witness for C2 at concrete inputs: all-explicit, shorthand-with-override,
and the error case. -/
theorem scalar_resolution_trichotomy_witness :
    parse_type_alias_methods (some "a") (some "b") (some (.custom "c")) none =
      .ok (.custom "a" "b" (.custom "c")) ∧
    parse_type_alias_methods (some "a") none none none =
      .error scalarMethodsErrMsg := by
  constructor
  · exact scalar_resolution_trichotomy.1 "a" "b" (.custom "c")
  · exact scalar_resolution_trichotomy.2.2.1 (some "a") none none (by simp)

/-- C5: for every scalar declaration supplying neither a module shorthand nor
all three explicit conversion functions, contract resolution fails with a
configuration error whose message names the conversion roles (the message
contains each role's attribute-argument name). -/
theorem scalar_missing_role_error (t f : Option String) (p : Option ParseToken)
    (h : ¬(t.isSome ∧ f.isSome ∧ p.isSome)) :
    parse_type_alias_methods t f p none = .error scalarMethodsErrMsg ∧
    strContains scalarMethodsErrMsg "to_output_with" ∧
    strContains scalarMethodsErrMsg "from_input_with" ∧
    strContains scalarMethodsErrMsg "parse_token" ∧
    strContains scalarMethodsErrMsg "with" := by
  refine ⟨?_, ?_, ?_, ?_, ?_⟩
  · cases t <;> cases f <;> cases p <;>
      simp_all [parse_type_alias_methods, Option.isSome]
  · exact ⟨"all the resolvers have to be provided via `with` attribute " ++
      "argument or a combination of `", "`, `from_input_with`, " ++
      "`parse_token_with`/`parse_token` attribute arguments", by rfl⟩
  · exact ⟨"all the resolvers have to be provided via `with` attribute " ++
      "argument or a combination of `to_output_with`, `",
      "`, `parse_token_with`/`parse_token` attribute arguments", by rfl⟩
  · exact ⟨"all the resolvers have to be provided via `with` attribute " ++
      "argument or a combination of `to_output_with`, `from_input_with`, `",
      "_with`/`parse_token` attribute arguments", by rfl⟩
  · exact ⟨"all the resolvers have to be provided via `",
      "` attribute argument or a combination of `to_output_with`, " ++
      "`from_input_with`, `parse_token_with`/`parse_token` attribute " ++
      "arguments", by rfl⟩

/-- Every member whose resolver is invoked during dispatch is one of the
dispatched member list's elements. -/
theorem mem_of_mem_trace {V C M : Type} (ms : List (UnionMember V C M))
    (v : V) (c : C) (m : UnionMember V C M)
    (h : m ∈ (resolveIntoTypeTraced ms v c).2) : m ∈ ms := by
  induction ms with
  | nil => simp [resolveIntoTypeTraced] at h
  | cons hd tl ih =>
    rw [resolveIntoTypeTraced] at h
    cases hres : hd.resolver v c with
    | some r =>
      rw [hres] at h
      simp at h
      simp [h]
    | none =>
      rw [hres] at h
      simp at h
      rcases h with h | h
      · simp [h]
      · exact List.mem_cons_of_mem _ (ih h)

/-- C1: runtime union dispatch invokes the members' resolvers sequentially in
declaration order and returns the first member whose resolver yields a
present result; the invoked-resolver trace is exactly the declaration-order
prefix ending at the first match, so no later member's resolver is invoked
once a match is found. -/
theorem union_dispatch_first_match {V C M : Type}
    (ms : List (UnionMember V C M)) (v : V) (c : C) (i : Nat)
    (hi : i < ms.length)
    (hbefore : ∀ j (hj : j < i),
      (ms.get ⟨j, Nat.lt_trans hj hi⟩).resolver v c = none)
    (r : M) (hmatch : (ms.get ⟨i, hi⟩).resolver v c = some r) :
    resolveIntoType ms v c = some (ms.get ⟨i, hi⟩, r) ∧
    resolveIntoTypeTraced ms v c =
      (some (ms.get ⟨i, hi⟩, r), ms.take (i + 1)) := by
  have key : resolveIntoTypeTraced ms v c =
      (some (ms.get ⟨i, hi⟩, r), ms.take (i + 1)) := by
    induction ms generalizing i with
    | nil => exact absurd hi (Nat.not_lt_zero i)
    | cons hd tl ih =>
      cases i with
      | zero =>
        simp only [List.get] at hmatch
        simp [resolveIntoTypeTraced, hmatch]
      | succ i' =>
        have h0 : hd.resolver v c = none := hbefore 0 (Nat.succ_pos i')
        have hi' : i' < tl.length := Nat.lt_of_succ_lt_succ hi
        have hbefore' : ∀ j (hj : j < i'),
            (tl.get ⟨j, Nat.lt_trans hj hi'⟩).resolver v c = none := by
          intro j hj
          exact hbefore (j + 1) (Nat.succ_lt_succ hj)
        have hmatch' : (tl.get ⟨i', hi'⟩).resolver v c = some r := hmatch
        rw [resolveIntoTypeTraced, h0]
        simp only [List.get, List.take]
        rw [ih i' hi' hbefore' hmatch']
  exact ⟨by rw [resolveIntoType, key], key⟩

/-- Witness for C1, the spec's determinism scenario: members `[A, B]` in that
declaration order whose resolvers both match the value — dispatch returns
`A`, and `B`'s resolver is never invoked (the trace is `[A]`). -/
theorem union_dispatch_first_match_witness :
    resolveIntoType
      [UnionMember.mk "A" (fun (v : Nat) (_ : Unit) => some (v + 1)),
       UnionMember.mk "B" (fun (v : Nat) (_ : Unit) => some (v + 2))] 5 () =
      some (UnionMember.mk "A" (fun (v : Nat) (_ : Unit) => some (v + 1)), 6) ∧
    resolveIntoTypeTraced
      [UnionMember.mk "A" (fun (v : Nat) (_ : Unit) => some (v + 1)),
       UnionMember.mk "B" (fun (v : Nat) (_ : Unit) => some (v + 2))] 5 () =
      (some (UnionMember.mk "A" (fun (v : Nat) (_ : Unit) => some (v + 1)), 6),
       [UnionMember.mk "A" (fun (v : Nat) (_ : Unit) => some (v + 1))]) := by
  have h := union_dispatch_first_match
    [UnionMember.mk "A" (fun (v : Nat) (_ : Unit) => some (v + 1)),
     UnionMember.mk "B" (fun (v : Nat) (_ : Unit) => some (v + 2))] 5 () 0
    (by simp) (fun j hj => absurd hj (Nat.not_lt_zero j)) 6 rfl
  exact ⟨h.1, h.2⟩

/-- `Char.ofNat` of a valid scalar value decodes back to that value. -/
theorem char_toNat_ofNat (n : Nat) (h : n.isValidChar) :
    (Char.ofNat n).toNat = n := by
  rw [Char.ofNat, dif_pos h]
  rfl

/-- Upper-casing a character other than `'_'` never yields `'_'`. -/
theorem toUpper_ne_underscore {c : Char} (h : c ≠ '_') : c.toUpper ≠ '_' := by
  intro hc
  rw [Char.toUpper] at hc
  by_cases hr : c.toNat ≥ 97 ∧ c.toNat ≤ 122
  · rw [if_pos hr] at hc
    have hv : (c.toNat - 32).isValidChar := Or.inl (by omega)
    have h95 : (Char.ofNat (c.toNat - 32)).toNat = c.toNat - 32 :=
      char_toNat_ofNat _ hv
    rw [hc] at h95
    have : ('_').toNat = 95 := rfl
    omega
  · rw [if_neg hr] at hc
    exact h hc

/-- Unfolding lemma: camel-casing past a non-underscore head character. -/
theorem camelCaseChars_cons_ne (c : Char) (rest : List Char) (h : c ≠ '_') :
    camelCaseChars (c :: rest) = c :: camelCaseChars rest := by
  conv_lhs => rw [camelCaseChars.eq_def]
  exact if_neg h

/-- Unfolding lemma: an underscore swallows itself and upper-cases the
following character. -/
theorem camelCaseChars_underscore_cons (d : Char) (rest : List Char) :
    camelCaseChars ('_' :: d :: rest) = d.toUpper :: camelCaseChars rest := by
  conv_lhs => rw [camelCaseChars.eq_def]
  exact if_pos rfl

/-- Camel-casing walks an underscore-free chunk unchanged. -/
theorem camelCaseChars_append (w t : List Char) (h : '_' ∉ w) :
    camelCaseChars (w ++ t) = w ++ camelCaseChars t := by
  induction w with
  | nil => rfl
  | cons c w ih =>
    have hc : c ≠ '_' := fun e => h (e ▸ List.mem_cons_self c w)
    have hw : '_' ∉ w := fun m => h (List.mem_cons_of_mem c m)
    rw [List.cons_append, camelCaseChars_cons_ne c _ hc, ih hw]
    rfl

/-- Camel-casing an underscore-free list is the identity. -/
theorem camelCaseChars_eq_self (w : List Char) (h : '_' ∉ w) :
    camelCaseChars w = w := by
  have h2 := camelCaseChars_append w [] h
  rw [List.append_nil] at h2
  rw [h2, show camelCaseChars [] = [] from rfl, List.append_nil]

/-- Camel-casing an underscore followed by the underscore-join of nonempty,
underscore-free words capitalizes each word and drops every separator. -/
theorem camelCaseChars_cons_underscore (ws : List (List Char))
    (h : ∀ w ∈ ws, w ≠ [] ∧ '_' ∉ w) :
    camelCaseChars ('_' :: underscoreJoin ws) =
      (ws.map capitalizeWord).flatten := by
  induction ws with
  | nil => rfl
  | cons w ws ih =>
    obtain ⟨hne, hnu⟩ := h w (List.mem_cons_self w ws)
    obtain ⟨d, w', rfl⟩ : ∃ d w', w = d :: w' := by
      cases w with
      | nil => exact absurd rfl hne
      | cons d w' => exact ⟨d, w', rfl⟩
    have hw' : '_' ∉ w' := fun m => hnu (List.mem_cons_of_mem d m)
    cases ws with
    | nil =>
      show camelCaseChars ('_' :: d :: w') = _
      rw [camelCaseChars_underscore_cons, camelCaseChars_eq_self w' hw']
      simp [capitalizeWord]
    | cons w2 ws2 =>
      show camelCaseChars
        ('_' :: ((d :: w') ++ '_' :: underscoreJoin (w2 :: ws2))) = _
      rw [show ('_' :: ((d :: w') ++ '_' :: underscoreJoin (w2 :: ws2))) =
        '_' :: d :: (w' ++ '_' :: underscoreJoin (w2 :: ws2)) from rfl]
      rw [camelCaseChars_underscore_cons, camelCaseChars_append w' _ hw',
        ih (fun u hu => h u (List.mem_cons_of_mem (d :: w') hu))]
      simp [capitalizeWord]

/-- Camel-casing an identifier composed of nonempty, underscore-free words
joined by underscores yields the first word followed by every later word
capitalized, with no separators. -/
theorem camelCaseChars_underscoreJoin (w : List Char) (ws : List (List Char))
    (h : ∀ u ∈ w :: ws, u ≠ [] ∧ '_' ∉ u) :
    camelCaseChars (underscoreJoin (w :: ws)) = camelJoin (w :: ws) := by
  obtain ⟨-, hnu⟩ := h w (List.mem_cons_self w ws)
  cases ws with
  | nil =>
    show camelCaseChars w = _
    rw [camelCaseChars_eq_self w hnu]
    simp [camelJoin]
  | cons w2 ws2 =>
    show camelCaseChars (w ++ '_' :: underscoreJoin (w2 :: ws2)) = _
    rw [camelCaseChars_append w _ hnu,
      camelCaseChars_cons_underscore (w2 :: ws2)
        (fun u hu => h u (List.mem_cons_of_mem w hu))]
    rfl

/-- The camel-joined form of nonempty, underscore-free words contains no
underscore. -/
theorem underscore_not_mem_camelJoin (ws : List (List Char))
    (h : ∀ w ∈ ws, w ≠ [] ∧ '_' ∉ w) : '_' ∉ camelJoin ws := by
  cases ws with
  | nil => simp [camelJoin]
  | cons w ws =>
    obtain ⟨-, hnu⟩ := h w (List.mem_cons_self w ws)
    intro hmem
    rw [camelJoin, List.mem_append] at hmem
    rcases hmem with hmem | hmem
    · exact hnu hmem
    · rw [List.mem_flatten] at hmem
      obtain ⟨l, hl, hmem⟩ := hmem
      rw [List.mem_map] at hl
      obtain ⟨u, hu, rfl⟩ := hl
      obtain ⟨hne, hnuu⟩ := h u (List.mem_cons_of_mem w hu)
      obtain ⟨d, u', rfl⟩ : ∃ d u', u = d :: u' := by
        cases u with
        | nil => exact absurd rfl hne
        | cons d u' => exact ⟨d, u', rfl⟩
      rw [capitalizeWord] at hmem
      rcases List.mem_cons.mp hmem with hmem | hmem
      · exact toUpper_ne_underscore
          (fun e => hnuu (e ▸ List.mem_cons_self d u')) hmem.symm
      · exact hnuu (List.mem_cons_of_mem d hmem)

/-- C8: name resolution returns an explicit override verbatim with no rename
rule applied, regardless of the rule in effect; otherwise it applies the
rename rule (defaulting to camel-case when `rename_all` is absent) to the
identifier, so that an identifier composed of underscore-separated words
resolves to a name with no underscores in which each word after the first is
capitalized. -/
theorem naming_resolution_contract
    (i o : String) (r : RenameRule) (w : List Char) (ws : List (List Char))
    (h : ∀ u ∈ w :: ws, u ≠ [] ∧ '_' ∉ u) :
    resolve_name i (some o) r = o ∧
    resolve_name i none r = r.apply i ∧
    effectiveRule none = RenameRule.camelCase ∧
    resolve_name ⟨underscoreJoin (w :: ws)⟩ none .camelCase =
      ⟨camelJoin (w :: ws)⟩ ∧
    '_' ∉ (resolve_name ⟨underscoreJoin (w :: ws)⟩ none .camelCase).data := by
  have key : resolve_name ⟨underscoreJoin (w :: ws)⟩ none .camelCase =
      ⟨camelJoin (w :: ws)⟩ := by
    show RenameRule.apply .camelCase _ = _
    rw [RenameRule.apply]
    exact congrArg String.mk (camelCaseChars_underscoreJoin w ws h)
  refine ⟨rfl, rfl, rfl, key, ?_⟩
  rw [key]
  exact underscore_not_mem_camelJoin (w :: ws) h

/-- Witness for C8 at the spec's round-trip scenario: the override wins
regardless of the rule, and `home_planet`-style identifiers camel-case with
the underscore removed and the second word capitalized. -/
theorem naming_resolution_contract_witness :
    resolve_name "home_planet" (some "override") .camelCase = "override" ∧
    resolve_name ⟨underscoreJoin [['h','o','m','e'], ['p','l','a','n','e','t']]⟩
        none .camelCase =
      ⟨camelJoin [['h','o','m','e'], ['p','l','a','n','e','t']]⟩ := by
  have h := naming_resolution_contract "home_planet" "override" .camelCase
    ['h','o','m','e'] [['p','l','a','n','e','t']] (by decide)
  exact ⟨h.1, h.2.2.2.1⟩

/-- Checkpoint 1 (`derive.rs:59`): a reserved-prefix diagnostic on the
object's own name aborts the expansion with exactly that diagnostic, before
any field is processed. -/
theorem expand_struct_name_abort (ast : DeriveInput)
    (h : (objNameDiags ast).isEmpty = false) :
    expand_struct ast = .error (objNameDiags ast) := by
  simp only [expand_struct]
  rw [if_pos h]

/-- Checkpoint 2 (`derive.rs:80`), non-named case: a struct without named
fields aborts with the "only named fields" diagnostic. -/
theorem expand_struct_not_named (ast : DeriveInput)
    (hclean : objNameDiags ast = []) (hn : ast.namedFields = false) :
    expand_struct ast =
      .error [⟨ast.ident, "only named fields are allowed"⟩] := by
  simp only [expand_struct, hclean, hn]
  simp

/-- Checkpoint 2 (`derive.rs:80`), named case: any diagnostics emitted while
parsing fields abort the expansion with exactly those diagnostics (every
sibling's diagnostics included). -/
theorem expand_struct_field_abort (ast : DeriveInput)
    (hclean : objNameDiags ast = []) (hn : ast.namedFields = true)
    (h : fieldDiags ast.fields (effectiveRule ast.attr.rename_fields) ≠ []) :
    expand_struct ast =
      .error (fieldDiags ast.fields (effectiveRule ast.attr.rename_fields)) := by
  simp only [expand_struct, hclean, hn]
  simp [h]

/-- Checkpoint 3 (`derive.rs:89`): with clean field parsing, any structural
violation aborts with the concatenated outputs of both structural checks. -/
theorem expand_struct_structural_abort (ast : DeriveInput)
    (hclean : objNameDiags ast = []) (hn : ast.namedFields = true)
    (h2 : fieldDiags ast.fields (effectiveRule ast.attr.rename_fields) = [])
    (h3 : structuralDiags ast.ident
      (fieldDefs ast.fields (effectiveRule ast.attr.rename_fields)) ≠ []) :
    expand_struct ast =
      .error (structuralDiags ast.ident
        (fieldDefs ast.fields (effectiveRule ast.attr.rename_fields))) := by
  simp only [expand_struct, hclean, hn, h2]
  simp [h3]

/-- The success case: with every checkpoint clean, `expand_struct` builds the
definition from the attribute record and the collected fields. -/
theorem expand_struct_success (ast : DeriveInput)
    (hclean : objNameDiags ast = []) (hn : ast.namedFields = true)
    (h2 : fieldDiags ast.fields (effectiveRule ast.attr.rename_fields) = [])
    (h3 : structuralDiags ast.ident
      (fieldDefs ast.fields (effectiveRule ast.attr.rename_fields)) = []) :
    expand_struct ast = .ok
      { name := ast.attr.name.getD ast.ident
        ty := ast.ident ++ ast.generics
        generics := ast.generics
        description := ast.attr.description
        context := ast.attr.context.getD "()"
        scalar := ast.attr.scalar
        behavior := ast.attr.behavior.getD ""
        fields := fieldDefs ast.fields (effectiveRule ast.attr.rename_fields)
        interfaces := ast.attr.interfaces } := by
  simp only [expand_struct, hclean, hn, h2, h3]
  simp [h3]

/-- Inversion of a successful expansion: the struct's fields were named and
the definition's field list is exactly the one collected by `parse_field`
under the effective renaming rule. -/
theorem expand_struct_ok_inv (ast : DeriveInput) (defn : Definition)
    (h : expand_struct ast = .ok defn) :
    ast.namedFields = true ∧
    defn.fields = fieldDefs ast.fields (effectiveRule ast.attr.rename_fields) := by
  by_cases h1 : (objNameDiags ast).isEmpty = false
  · rw [expand_struct_name_abort ast h1] at h
    exact absurd h (by simp)
  · have hclean : objNameDiags ast = [] := by
      cases hE : objNameDiags ast with
      | nil => rfl
      | cons a l => rw [hE] at h1; simp at h1
    cases hn : ast.namedFields with
    | false =>
      rw [expand_struct_not_named ast hclean hn] at h
      exact absurd h (by simp)
    | true =>
      by_cases h2 : fieldDiags ast.fields (effectiveRule ast.attr.rename_fields) = []
      · by_cases h3 : structuralDiags ast.ident
            (fieldDefs ast.fields (effectiveRule ast.attr.rename_fields)) = []
        · rw [expand_struct_success ast hclean hn h2 h3] at h
          refine ⟨rfl, ?_⟩
          rw [← Except.ok.inj h]
        · rw [expand_struct_structural_abort ast hclean hn h2 h3] at h
          exact absurd h (by simp)
      · rw [expand_struct_field_abort ast hclean hn h2] at h
        exact absurd h (by simp)

/-- A collected field definition comes from some field's `parse_field`. -/
theorem mem_fieldDefs (fs : List Field) (rule : RenameRule) (d : FieldDef)
    (h : d ∈ fieldDefs fs rule) :
    ∃ f ∈ fs, (parse_field f rule).2 = some d := by
  rw [fieldDefs, List.mem_filterMap] at h
  obtain ⟨p, hp, hpd⟩ := h
  rw [List.mem_map] at hp
  obtain ⟨f, hf, rfl⟩ := hp
  exact ⟨f, hf, hpd⟩

/-- C10: every field definition produced by the object derive — both at the
single-field level (`parse_field`) and in every successfully expanded
definition — has no argument list, is not receiver-bound, and is not
asynchronous. -/
theorem derived_fields_plain :
    (∀ (f : Field) (rule : RenameRule) (d : FieldDef),
      (parse_field f rule).2 = some d →
      d.arguments = none ∧ d.has_receiver = false ∧ d.is_async = false) ∧
    (∀ (ast : DeriveInput) (defn : Definition),
      expand_struct ast = .ok defn → ∀ d ∈ defn.fields,
      d.arguments = none ∧ d.has_receiver = false ∧ d.is_async = false) := by
  have base : ∀ (f : Field) (rule : RenameRule) (d : FieldDef),
      (parse_field f rule).2 = some d →
      d.arguments = none ∧ d.has_receiver = false ∧ d.is_async = false := by
    intro f rule d h
    cases hattr : f.attr with
    | error e => simp [parse_field, hattr] at h
    | ok attr =>
      by_cases hig : attr.ignore
      · simp [parse_field, hattr, hig] at h
      · by_cases hsw :
          strStartsWith (resolve_name f.ident attr.name rule) "__" = true
        · simp [parse_field, hattr, hig, hsw] at h
        · simp [parse_field, hattr, hig, hsw] at h
          rw [← h]
          exact ⟨rfl, rfl, rfl⟩
  refine ⟨base, fun ast defn h d hd => ?_⟩
  obtain ⟨-, hfields⟩ := expand_struct_ok_inv ast defn h
  rw [hfields] at hd
  obtain ⟨f, -, hf⟩ := mem_fieldDefs _ _ d hd
  exact base f _ d hf

/-- Witness for C10: the plain-accessor flags on a concrete parsed field. -/
theorem derived_fields_plain_witness :
    (parse_field ⟨"id", "String", .ok ⟨none, none, none, false, none⟩⟩
      .camelCase).2 =
      some ⟨"id", "String", none, none, "id", "", none, false, false⟩ ∧
    ((⟨"id", "String", none, none, "id", "", none, false, false⟩ :
        FieldDef).arguments = none ∧
      (⟨"id", "String", none, none, "id", "", none, false, false⟩ :
        FieldDef).has_receiver = false ∧
      (⟨"id", "String", none, none, "id", "", none, false, false⟩ :
        FieldDef).is_async = false) := by
  refine ⟨by decide, ?_⟩
  exact derived_fields_plain.1
    ⟨"id", "String", .ok ⟨none, none, none, false, none⟩⟩ .camelCase _
    (by decide)

/-- Witness for C5: a declaration giving only `to_output_with` fails. -/
theorem scalar_missing_role_error_witness :
    parse_type_alias_methods (some "my_to_output") none none none =
      .error scalarMethodsErrMsg ∧
    strContains scalarMethodsErrMsg "from_input_with" :=
  ⟨(scalar_missing_role_error (some "my_to_output") none none (by simp)).1,
   (scalar_missing_role_error (some "my_to_output") none none (by simp)).2.2.1⟩

/-- C4: a field whose metadata fails to parse is dropped with exactly its own
diagnostic; every sibling field is still parsed in the same pass (producing
the same diagnostics and definitions it would produce without the bad
field), so the unparseable field contributes nothing but its diagnostic. -/
theorem bad_field_skipped (pre post : List Field) (bad : Field) (e : String)
    (rule : RenameRule) (hbad : bad.attr = .error e) :
    parse_field bad rule = ([⟨bad.ident, e⟩], none) ∧
    fieldDefs (pre ++ bad :: post) rule = fieldDefs (pre ++ post) rule ∧
    fieldDiags (pre ++ bad :: post) rule =
      fieldDiags pre rule ++ [⟨bad.ident, e⟩] ++ fieldDiags post rule := by
  have hpf : parse_field bad rule = ([⟨bad.ident, e⟩], none) := by
    simp [parse_field, hbad]
  refine ⟨hpf, ?_, ?_⟩
  · simp [fieldDefs, hpf]
  · simp [fieldDiags, hpf]

/-- Witness for C4: a two-good-one-bad struct — the bad field is dropped, the
siblings' definitions are those of the bad-free struct, and the diagnostics
are exactly the bad field's. -/
theorem bad_field_skipped_witness :
    parse_field ⟨"bad", "T", .error "boom"⟩ .camelCase =
      ([⟨"bad", "boom"⟩], none) ∧
    fieldDefs [⟨"id", "String", .ok ⟨none, none, none, false, none⟩⟩,
        ⟨"bad", "T", .error "boom"⟩,
        ⟨"home_planet", "String", .ok ⟨none, none, none, false, none⟩⟩]
        .camelCase =
      fieldDefs [⟨"id", "String", .ok ⟨none, none, none, false, none⟩⟩,
        ⟨"home_planet", "String", .ok ⟨none, none, none, false, none⟩⟩]
        .camelCase ∧
    fieldDiags [⟨"id", "String", .ok ⟨none, none, none, false, none⟩⟩,
        ⟨"bad", "T", .error "boom"⟩,
        ⟨"home_planet", "String", .ok ⟨none, none, none, false, none⟩⟩]
        .camelCase =
      fieldDiags [⟨"id", "String", .ok ⟨none, none, none, false, none⟩⟩]
        .camelCase ++ [⟨"bad", "boom"⟩] ++
      fieldDiags [⟨"home_planet", "String", .ok ⟨none, none, none, false, none⟩⟩]
        .camelCase :=
  bad_field_skipped
    [⟨"id", "String", .ok ⟨none, none, none, false, none⟩⟩]
    [⟨"home_planet", "String", .ok ⟨none, none, none, false, none⟩⟩]
    ⟨"bad", "T", .error "boom"⟩ "boom" .camelCase rfl

/-- String containment coincides with list-infix on the character data. -/
theorem strContains_iff_infix_data (hay needle : String) :
    strContains hay needle ↔ needle.data <:+: hay.data := by
  constructor
  · rintro ⟨pre, post, rfl⟩
    exact ⟨pre.data, post.data, by simp⟩
  · rintro ⟨s, t, hst⟩
    cases hay with
    | mk l => exact ⟨⟨s⟩, ⟨t⟩, congrArg String.mk hst.symm⟩

/-- Counterexample to C6 as stated: two fields (`alpha`, `beta`) whose
resolved names collide on the explicit override `same` — the expansion does
fail, but with the fixed message "must have a different name for each field"
attached to the struct identifier, which lists none of the conflicting
identifiers. -/
theorem duplicate_error_counterexample :
    expand_struct ⟨"S", ⟨none, none, none, none, none, false, [], none⟩, true,
      [⟨"alpha", "T", .ok ⟨some "same", none, none, false, none⟩⟩,
       ⟨"beta", "T", .ok ⟨some "same", none, none, false, none⟩⟩], ""⟩ =
      .error [⟨"S", "must have a different name for each field"⟩] ∧
    ¬ strContains "must have a different name for each field" "alpha" ∧
    ¬ strContains "must have a different name for each field" "beta" ∧
    ¬ strContains "must have a different name for each field" "same" := by
  refine ⟨by rfl, ?_, ?_, ?_⟩ <;>
    rw [strContains_iff_infix_data] <;> decide

/-- C6 as amended: with clean field parsing, any structural violation
(emptiness or duplicate resolved names) aborts with the concatenated outputs
of both structural checks — both validations run before the single abort, so
neither masks the other; a duplicate-name violation contributes the fixed
duplicate-name diagnostic at the struct identifier. -/
theorem structural_violations_both_reported (ast : DeriveInput)
    (hclean : objNameDiags ast = []) (hn : ast.namedFields = true)
    (h2 : fieldDiags ast.fields (effectiveRule ast.attr.rename_fields) = [])
    (hviol : fieldDefs ast.fields (effectiveRule ast.attr.rename_fields) = [] ∨
      all_different
        (fieldDefs ast.fields (effectiveRule ast.attr.rename_fields)) = false) :
    expand_struct ast = .error (structuralDiags ast.ident
      (fieldDefs ast.fields (effectiveRule ast.attr.rename_fields))) ∧
    (all_different
        (fieldDefs ast.fields (effectiveRule ast.attr.rename_fields)) = false →
      Diag.mk ast.ident "must have a different name for each field" ∈
        structuralDiags ast.ident
          (fieldDefs ast.fields (effectiveRule ast.attr.rename_fields))) ∧
    (fieldDefs ast.fields (effectiveRule ast.attr.rename_fields) = [] →
      Diag.mk ast.ident "must have at least one field" ∈
        structuralDiags ast.ident
          (fieldDefs ast.fields (effectiveRule ast.attr.rename_fields))) := by
  refine ⟨?_, ?_, ?_⟩
  · refine expand_struct_structural_abort ast hclean hn h2 ?_
    rcases hviol with hviol | hviol <;>
      simp [structuralDiags, hviol]
  · intro hdup
    simp [structuralDiags, hdup]
  · intro hempty
    simp [structuralDiags, hempty]

/-- Witness for the amended C6: the colliding-override struct from the
counterexample aborts with exactly the duplicate-name diagnostic. -/
theorem structural_violations_both_reported_witness :
    expand_struct ⟨"S", ⟨none, none, none, none, none, false, [], none⟩, true,
      [⟨"alpha", "T", .ok ⟨some "same", none, none, false, none⟩⟩,
       ⟨"beta", "T", .ok ⟨some "same", none, none, false, none⟩⟩], ""⟩ =
      .error (structuralDiags "S"
        (fieldDefs
          [⟨"alpha", "T", .ok ⟨some "same", none, none, false, none⟩⟩,
           ⟨"beta", "T", .ok ⟨some "same", none, none, false, none⟩⟩]
          (effectiveRule none))) :=
  (structural_violations_both_reported
    ⟨"S", ⟨none, none, none, none, none, false, [], none⟩, true,
      [⟨"alpha", "T", .ok ⟨some "same", none, none, false, none⟩⟩,
       ⟨"beta", "T", .ok ⟨some "same", none, none, false, none⟩⟩], ""⟩
    (by decide) rfl (by decide) (Or.inr (by decide))).1

/-- Counterexample to C7 as stated: a declaration whose only field is
unparseable has zero live fields after filtering, yet the expansion fails at
the earlier per-field checkpoint with the parse diagnostic — the
empty-definition error is never reported. -/
theorem empty_after_filtering_counterexample :
    fieldDefs [⟨"f", "T", .error "boom"⟩] (effectiveRule none) = [] ∧
    expand_struct ⟨"S", ⟨none, none, none, none, none, false, [], none⟩, true,
      [⟨"f", "T", .error "boom"⟩], ""⟩ = .error [⟨"f", "boom"⟩] ∧
    ∀ d ∈ [Diag.mk "f" "boom"], d.msg ≠ "must have at least one field" := by
  refine ⟨by decide, by rfl, by decide⟩

/-- C7 as amended: a declaration whose live field list is empty after
filtering fails; when field parsing emitted no diagnostics (fields ignored or
absent), the failure carries exactly the empty-definition error. -/
theorem empty_definition_error (ast : DeriveInput)
    (hclean : objNameDiags ast = []) (hn : ast.namedFields = true)
    (h2 : fieldDiags ast.fields (effectiveRule ast.attr.rename_fields) = [])
    (hempty : fieldDefs ast.fields (effectiveRule ast.attr.rename_fields) = []) :
    expand_struct ast =
      .error [⟨ast.ident, "must have at least one field"⟩] := by
  have h := expand_struct_structural_abort ast hclean hn h2
    (by simp [structuralDiags, hempty])
  rw [h]
  simp [structuralDiags, hempty, all_different, all_different.namesNodup]

/-- Witness for the amended C7: a struct whose only field is ignored aborts
with the empty-definition error. -/
theorem empty_definition_error_witness :
    expand_struct ⟨"S", ⟨none, none, none, none, none, false, [], none⟩, true,
      [⟨"x", "T", .ok ⟨none, none, none, true, none⟩⟩], ""⟩ =
      .error [⟨"S", "must have at least one field"⟩] :=
  empty_definition_error
    ⟨"S", ⟨none, none, none, none, none, false, [], none⟩, true,
      [⟨"x", "T", .ok ⟨none, none, none, true, none⟩⟩], ""⟩
    (by decide) rfl (by decide) (by decide)

/-- C3 as amended: a reserved-prefix object name (without internal opt-in)
emits the `no_double_underscore` diagnostic at the offending identifier and
aborts the expansion at the first checkpoint, before any field is processed;
a reserved-prefix resolved field name emits the diagnostic at the offending
identifier and drops that field (no definition is produced for it), while
sibling processing continues and any field diagnostics abort the expansion at
the second checkpoint with every accumulated diagnostic. -/
theorem reserved_name_diagnostics :
    (∀ ast : DeriveInput, ast.attr.is_internal = false →
      strStartsWith (ast.attr.name.getD ast.ident) "__" = true →
      expand_struct ast =
        .error [⟨ast.attr.name.getD ast.ident, noDoubleUnderscoreMsg⟩]) ∧
    (∀ (f : Field) (a : FieldAttr) (rule : RenameRule), f.attr = .ok a →
      a.ignore = false →
      strStartsWith (resolve_name f.ident a.name rule) "__" = true →
      parse_field f rule =
        ([⟨a.name.getD f.ident, noDoubleUnderscoreMsg⟩], none)) ∧
    (∀ ast : DeriveInput, ast.namedFields = true → objNameDiags ast = [] →
      fieldDiags ast.fields (effectiveRule ast.attr.rename_fields) ≠ [] →
      expand_struct ast =
        .error (fieldDiags ast.fields (effectiveRule ast.attr.rename_fields))) := by
  refine ⟨fun ast h1 h2 => ?_, fun f a rule hattr hig hsw => ?_,
    fun ast hn hclean h => expand_struct_field_abort ast hclean hn h⟩
  · have hd : objNameDiags ast =
        [⟨ast.attr.name.getD ast.ident, noDoubleUnderscoreMsg⟩] := by
      simp [objNameDiags, h1, h2]
    rw [expand_struct_name_abort ast (by rw [hd]; rfl), hd]
  · simp [parse_field, hattr, hig, hsw]

/-- Witness for the amended C3: a reserved object name override aborts with
its diagnostic, and a reserved field name override drops the field. -/
theorem reserved_name_diagnostics_witness :
    expand_struct ⟨"S",
        ⟨some "__Obj", none, none, none, none, false, [], none⟩, true,
        [⟨"id", "String", .ok ⟨none, none, none, false, none⟩⟩], ""⟩ =
      .error [⟨"__Obj", noDoubleUnderscoreMsg⟩] ∧
    parse_field ⟨"x", "T", .ok ⟨some "__f", none, none, false, none⟩⟩
        .camelCase =
      ([⟨"__f", noDoubleUnderscoreMsg⟩], none) := by
  constructor
  · exact reserved_name_diagnostics.1
      ⟨"S", ⟨some "__Obj", none, none, none, none, false, [], none⟩, true,
        [⟨"id", "String", .ok ⟨none, none, none, false, none⟩⟩], ""⟩
      rfl (by decide)
  · exact reserved_name_diagnostics.2.1
      ⟨"x", "T", .ok ⟨some "__f", none, none, false, none⟩⟩
      ⟨some "__f", none, none, false, none⟩ .camelCase rfl rfl (by decide)

/-- Counterexample to C3 as stated: a field whose resolved name starts with
`__` is dropped — `parse_field` yields `none`, so no field definition
carrying the name is produced and downstream building of that field does not
continue; moreover the field-level check fires even when the declaration
opted into internal status. -/
theorem reserved_field_name_counterexample :
    parse_field ⟨"x", "T", .ok ⟨some "__bad", none, none, false, none⟩⟩
        .camelCase =
      ([⟨"__bad", noDoubleUnderscoreMsg⟩], none) ∧
    expand_struct ⟨"S", ⟨none, none, none, none, none, true, [], none⟩, true,
        [⟨"x", "T", .ok ⟨some "__bad", none, none, false, none⟩⟩], ""⟩ =
      .error [⟨"__bad", noDoubleUnderscoreMsg⟩] :=
  ⟨rfl, rfl⟩

/-- An admitted union member arises from a non-ignored variant with the same
name and resolver. -/
theorem mem_admittedMembers {V C M : Type} (vs : List (UnionVariant V C M))
    (m : UnionMember V C M) (h : m ∈ admittedMembers vs) :
    ∃ u ∈ vs, u.ignore = false ∧ m = ⟨u.name, u.resolver⟩ := by
  rw [admittedMembers, List.mem_map] at h
  obtain ⟨u, hu, rfl⟩ := h
  rw [List.mem_filter] at hu
  exact ⟨u, hu.1, by simpa using hu.2, rfl⟩

/-- C9: an ignored struct field is dropped silently — the collected
definitions and diagnostics are exactly those of the declaration without it —
and, under distinct member names, an ignored union variant's name appears
neither in the schema's member list nor among the members whose resolvers
dispatch ever invokes. -/
theorem ignored_field_and_member_excluded {V C M : Type}
    (pre post : List Field) (ign : Field) (a : FieldAttr) (rule : RenameRule)
    (hattr : ign.attr = .ok a) (hig : a.ignore = true)
    (vs : List (UnionVariant V C M)) (var : UnionVariant V C M)
    (hvar : var ∈ vs) (hvig : var.ignore = true)
    (hnodup : (vs.map UnionVariant.name).Nodup) (v : V) (c : C) :
    parse_field ign rule = ([], none) ∧
    fieldDefs (pre ++ ign :: post) rule = fieldDefs (pre ++ post) rule ∧
    fieldDiags (pre ++ ign :: post) rule = fieldDiags (pre ++ post) rule ∧
    var.name ∉ (admittedMembers vs).map UnionMember.name ∧
    var.name ∉
      ((resolveIntoTypeTraced (admittedMembers vs) v c).2.map
        UnionMember.name) := by
  have hpf : parse_field ign rule = ([], none) := by
    simp [parse_field, hattr, hig]
  have hnames : var.name ∉ (admittedMembers vs).map UnionMember.name := by
    intro hmem
    rw [List.mem_map] at hmem
    obtain ⟨m, hm, hname⟩ := hmem
    obtain ⟨u, hu, huig, rfl⟩ := mem_admittedMembers vs m hm
    have : u = var := List.inj_on_of_nodup_map hnodup hu hvar hname
    rw [this] at huig
    rw [huig] at hvig
    exact Bool.false_ne_true hvig
  refine ⟨hpf, by simp [fieldDefs, hpf], by simp [fieldDiags, hpf],
    hnames, ?_⟩
  intro hmem
  rw [List.mem_map] at hmem
  obtain ⟨m, hm, hname⟩ := hmem
  exact hnames (List.mem_map.mpr
    ⟨m, mem_of_mem_trace (admittedMembers vs) v c m hm, hname⟩)

/-- Witness for C9: a concrete struct with an ignored field and a concrete
union (mirroring `ignored_enum_variants` in `union_derive.rs`: `Human` live,
`Ewok` ignored) — the ignored variant is absent from the member list and is
never consulted during dispatch. -/
theorem ignored_field_and_member_excluded_witness :
    parse_field ⟨"skipme", "T", .ok ⟨none, none, none, true, none⟩⟩
        .camelCase = ([], none) ∧
    fieldDefs [⟨"id", "String", .ok ⟨none, none, none, false, none⟩⟩,
        ⟨"skipme", "T", .ok ⟨none, none, none, true, none⟩⟩] .camelCase =
      fieldDefs [⟨"id", "String", .ok ⟨none, none, none, false, none⟩⟩]
        .camelCase ∧
    fieldDiags [⟨"id", "String", .ok ⟨none, none, none, false, none⟩⟩,
        ⟨"skipme", "T", .ok ⟨none, none, none, true, none⟩⟩] .camelCase =
      fieldDiags [⟨"id", "String", .ok ⟨none, none, none, false, none⟩⟩]
        .camelCase ∧
    "Ewok" ∉ (admittedMembers
      [UnionVariant.mk "Human" false (fun (v : Nat) (_ : Unit) =>
        if v = 0 then some 0 else none),
       UnionVariant.mk "Ewok" true (fun (_ : Nat) (_ : Unit) =>
        some 5)]).map UnionMember.name ∧
    "Ewok" ∉ ((resolveIntoTypeTraced (admittedMembers
      [UnionVariant.mk "Human" false (fun (v : Nat) (_ : Unit) =>
        if v = 0 then some 0 else none),
       UnionVariant.mk "Ewok" true (fun (_ : Nat) (_ : Unit) =>
        some 5)]) 7 ()).2.map UnionMember.name) := by
  have h := ignored_field_and_member_excluded
    [⟨"id", "String", .ok ⟨none, none, none, false, none⟩⟩] []
    ⟨"skipme", "T", .ok ⟨none, none, none, true, none⟩⟩
    ⟨none, none, none, true, none⟩ .camelCase rfl rfl
    [UnionVariant.mk "Human" false (fun (v : Nat) (_ : Unit) =>
      if v = 0 then some 0 else none),
     UnionVariant.mk "Ewok" true (fun (_ : Nat) (_ : Unit) => some 5)]
    (UnionVariant.mk "Ewok" true (fun (_ : Nat) (_ : Unit) => some 5))
    (List.mem_cons_of_mem _ (List.mem_cons_self _ _)) rfl (by decide) 7 ()
  exact ⟨h.1, by simpa using h.2.1, by simpa using h.2.2.1,
    h.2.2.2.1, h.2.2.2.2⟩

end Juniper
